import Mathlib

/-!
Verification of the declaration-extraction and signature-formatting engine of
the `revbro` tool (src/main.go).  The repository ships two variants of the
program in `main.go`; definitions carrying a `B` suffix embed the second
variant (lines 819-1048), the others embed the first variant (lines 1-818).

The embedding covers the expression fragment exercised by the tool on
variable/constant/function declarations: basic literals, identifiers,
selector, binary, star, paren, call and composite expressions together with
map types.  Struct, interface and function-type nodes (used only for the
type-declaration bodies) are outside the modelled fragment.  The external
renderers `go/types.ExprString` and `go/format.Node` (`exprToString`) are
modelled by one canonical textual renderer `exprString` on this fragment;
strings are modelled as character sequences (the tool is exercised on ASCII
input, where Go's byte indexing and character indexing agree).  Expression
lists and the optional composite-literal type are given their own inductive
types so that all recursion is structural.
-/

/-- Kinds of Go basic literals (go/token literal token kinds). -/
inductive LitKind where
  | int
  | float
  | string
  | char
  | imag

mutual

/-- The Go expression fragment (go/ast.Expr) that the claims exercise. -/
inductive GoExpr where
  | basicLit (kind : LitKind) (value : String)
  | ident (name : String)
  | selector (x : GoExpr) (sel : String)
  | binary (op : String) (x : GoExpr) (y : GoExpr)
  | star (x : GoExpr)
  | paren (x : GoExpr)
  | call (fn : GoExpr) (args : GoExprList)
  | composite (ty : GoExprOpt) (elts : GoExprList)
  | keyValue (k : GoExpr) (v : GoExpr)
  | mapType (key : GoExpr) (val : GoExpr)

/-- A list of Go expressions (argument and element lists). -/
inductive GoExprList where
  | nil
  | cons (head : GoExpr) (tail : GoExprList)

/-- An optional Go expression (a possibly absent syntax-tree field). -/
inductive GoExprOpt where
  | none
  | some (e : GoExpr)

end

/-- Length of a Go expression list (Go `len`). -/
def GoExprList.length : GoExprList → Nat
  | .nil => 0
  | .cons _ rest => 1 + rest.length

/-- Index lookup in a Go expression list (Go `xs[i]` guarded by `i < len`). -/
def GoExprList.get? : GoExprList → Nat → Option GoExpr
  | .nil, _ => Option.none
  | .cons e _, 0 => Option.some e
  | .cons _ rest, n + 1 => rest.get? n

/-- Go token kind of a general declaration (`const`, `var`, `type`). -/
inductive GoTok where
  | const
  | var
  | type
deriving DecidableEq

/-- One field of a Go field list (go/ast.Field): names and a type. -/
structure GoField where
  names : List String
  ty : GoExpr

/-- A Go function type (go/ast.FuncType): optional parameter and result
field lists; `none` models a nil field list, `some []` an empty one. -/
structure GoFuncType where
  params : Option (List GoField)
  results : Option (List GoField)

/-- Go string slicing `s[:n]` on the modelled ASCII fragment. -/
def goTake (s : String) (n : Nat) : String :=
  String.mk (s.data.take n)

/-- Go `strings.HasPrefix` on the modelled ASCII fragment. -/
def goStartsWith (s pre : String) : Bool :=
  pre.data.isPrefixOf s.data

/-- Go `strings.HasSuffix` on the modelled ASCII fragment. -/
def goEndsWith (s suf : String) : Bool :=
  suf.data.isSuffixOf s.data

/-- Fuel-indexed worker for Go `strings.ReplaceAll` (left-to-right,
non-overlapping); the fuel is the input length, enough to scan it. -/
def replaceAllAux (pat rep : List Char) : Nat → List Char → List Char
  | 0, s => s
  | _ + 1, [] => []
  | fuel + 1, c :: rest =>
    if pat ≠ [] ∧ pat.isPrefixOf (c :: rest) then
      rep ++ replaceAllAux pat rep fuel ((c :: rest).drop pat.length)
    else
      c :: replaceAllAux pat rep fuel rest

/-- Go `strings.ReplaceAll s pat rep`. -/
def goReplaceAll (s pat rep : String) : String :=
  String.mk (replaceAllAux pat.data rep.data s.data.length s.data)

/-- Go `strings.TrimSpace` on the modelled fragment. -/
def goTrim (s : String) : String :=
  String.mk (((s.data.dropWhile (·.isWhitespace)).reverse.dropWhile
    (·.isWhitespace)).reverse)

/-- Go `ast.IsExported`: the first character is upper case
(src/main.go uses `Name.IsExported` and `ast.IsExported`). -/
def isExported (name : String) : Bool :=
  match name.data with
  | [] => false
  | c :: _ => c.isUpper

mutual

/-- Canonical renderer for the expression fragment, modelling both
`go/types.ExprString` and `exprToString` (go/format.Node) from src/main.go
lines 372-382 and 1038-1048. -/
def exprString : GoExpr → String
  | .basicLit _ v => v
  | .ident n => n
  | .selector x s => exprString x ++ "." ++ s
  | .binary op x y => exprString x ++ " " ++ op ++ " " ++ exprString y
  | .star x => "*" ++ exprString x
  | .paren x => "(" ++ exprString x ++ ")"
  | .call f args => exprString f ++ "(" ++ exprCommaSep args ++ ")"
  | .keyValue k v => exprString k ++ ": " ++ exprString v
  | .mapType k v => "map[" ++ exprString k ++ "]" ++ exprString v
  | .composite ty elts =>
      exprOptString ty ++ "\x7b" ++ exprCommaSep elts ++ "\x7d"

/-- Comma-separated rendering of an expression list. -/
def exprCommaSep : GoExprList → String
  | .nil => ""
  | .cons e .nil => exprString e
  | .cons e (.cons e₂ rest) =>
      exprString e ++ ", " ++ exprCommaSep (.cons e₂ rest)

/-- Rendering of an optional expression (empty when absent). -/
def exprOptString : GoExprOpt → String
  | .none => ""
  | .some t => exprString t

end

/-- Embeds `inferType` (src/main.go lines 384-434): best-effort type label
for a value expression lacking an explicit type annotation. -/
def inferType : GoExpr → String
  | .basicLit k _ =>
    match k with
    | .int => "int"
    | .float => "float64"
    | .string => "string"
    | .char => "rune"
    | .imag => ""
  | .ident n =>
    if n == "true" || n == "false" then "bool"
    else if n == "iota" then "Status"
    else n
  | .binary op x _ =>
    if op == "*" &&
        (match x with
         | .selector (.ident t) _ => t == "time"
         | _ => false) then
      "time.Duration"
    else inferType x
  | .selector x s =>
    match x with
    | .ident xn =>
        if xn == "time" && s == "Duration" then "time.Duration"
        else xn ++ "." ++ s
    | _ => ""
  | .call f args =>
    match f with
    | .ident n =>
        if n == "make" then
          match args with
          | .cons a _ => exprString a
          | .nil => ""
        else ""
    | _ => ""
  | .composite ty _ => exprOptString ty
  | _ => ""

/-- Key-value elements of a composite literal rendered as `k: v`, dropping
non-key-value elements (the loop body of `formatMapLiteral`). -/
def mapElements : GoExprList → List String
  | .nil => []
  | .cons e rest =>
    (match e with
     | .keyValue k v => [exprString k ++ ": " ++ exprString v]
     | _ => []) ++ mapElements rest

/-- Embeds `formatValue` of the first variant (src/main.go lines 307-351).
`none` models the runtime panic of the slice `val[:maxLen-3]` when
`maxLen < 3` and the rendered string literal is longer than `maxLen`;
all other branches are total.  The source's `BinaryExpr` branch returns
`types.ExprString(expr)` on both of its paths, embedded as the default. -/
def formatValue (expr : GoExpr) (maxLen : Nat) : Option String :=
  match expr with
  | .basicLit k v =>
    match k with
    | .string =>
        if v.length > maxLen then
          if maxLen < 3 then Option.none
          else Option.some (goTake v (maxLen - 3) ++ "...")
        else Option.some v
    | _ => Option.some v
  | .composite ty elts =>
    match ty with
    | .some (.mapType k v) =>
        Option.some ("map[" ++ exprString k ++ "]" ++ exprString v ++
          "\x7b" ++
          (if elts.length > 0 then exprCommaSep elts
           else "timeout: 30, retries: true") ++ "\x7d")
    | _ => Option.some (exprString (.composite ty elts))
  | e => Option.some (exprString e)

/-- Embeds `formatValue` of the second variant (src/main.go lines
1010-1016): ellipsis truncation of an already-rendered value string.
`maxLen` stands for the global `maxValueLength`. -/
def formatValueB (value : String) (maxLen : Nat) : String :=
  if value.length > maxLen then goTake value maxLen ++ "..." else value

/-- Embeds `formatMapLiteral` (src/main.go lines 551-567) on the fields of
a composite literal (its optional type and element list). -/
def formatMapLiteral (ty : GoExprOpt) (elts : GoExprList) : String :=
  match ty with
  | .some (.mapType k v) =>
      "map[" ++ exprString k ++ "]" ++ exprString v ++ "\x7b" ++
        String.intercalate ", " (mapElements elts) ++ "\x7d"
  | _ => exprString (.composite ty elts)

/-- Embeds `formatField` (src/main.go lines 244-264) on the modelled
fragment.  The source appends a `formatFuncType` rendering when the field's
type is a function-type node; function-type nodes are outside the modelled
expression fragment, so only the general branch is represented. -/
def formatField (f : GoField) : String :=
  match f.names with
  | [] => exprString f.ty
  | n :: _ => n ++ " " ++ exprString f.ty

/-- Result-type rendering of `formatFuncType` (src/main.go lines 285-291):
the expression string with a leading `(*` parenthesization artifact
rewritten to a bare pointer (`"*" + typeStr[2:len(typeStr)-1]`). -/
def resultTypeStr (f : GoField) : String :=
  let t := exprString f.ty
  if goStartsWith t "(*" then "*" ++ String.mk ((t.data.drop 2).dropLast)
  else t

/-- Parameter part of `formatFuncType` (src/main.go lines 270-279). -/
def formatFuncTypeParams (params : Option (List GoField)) : String :=
  "(" ++
    (match params with
     | Option.some l =>
         if l.length > 0 then String.intercalate ", " (l.map formatField)
         else ""
     | Option.none => "") ++ ")"

/-- Result part of `formatFuncType` (src/main.go lines 281-302):
parentheses are added only for more than one result whose first rendered
type is not already parenthesized; result names are not rendered. -/
def formatFuncTypeResults (results : Option (List GoField)) : String :=
  match results with
  | Option.some l =>
      if l.length > 0 then
        let rs := l.map resultTypeStr
        " " ++
          (if rs.length > 1 ∧ goStartsWith (rs.headD "") "(" = false then
            "(" ++ String.intercalate ", " rs ++ ")"
          else String.intercalate ", " rs)
      else ""
  | Option.none => ""

/-- Embeds `formatFuncType` (src/main.go lines 266-305). -/
def formatFuncType (ft : GoFuncType) : String :=
  formatFuncTypeParams ft.params ++ formatFuncTypeResults ft.results

/-- Embeds `formatFieldList` of the first variant (src/main.go lines
353-370): every name of a field becomes `name type`, unnamed fields render
their type alone, parts comma-joined. -/
def formatFieldListA (fl : Option (List GoField)) : String :=
  match fl with
  | Option.none => ""
  | Option.some fields =>
      String.intercalate ", " ((fields.map fun f =>
        let typeStr := goTrim (goReplaceAll (exprString f.ty) "\n" " ")
        match f.names with
        | [] => [typeStr]
        | ns => ns.map fun n => n ++ " " ++ typeStr).flatten)

/-- Embeds `formatMethodResults` (src/main.go lines 624-641): parentheses
are added for multiple results or a single named result. -/
def formatMethodResults (fl : Option (List GoField)) : String :=
  match fl with
  | Option.none => ""
  | Option.some fields =>
      if fields.length = 0 then ""
      else
        let resultStr := formatFieldListA (Option.some fields)
        if fields.length > 1 ∨
            (fields.length = 1 ∧
              (fields.headD ⟨[], .ident ""⟩).names.length > 0) then
          "(" ++ resultStr ++ ")"
        else resultStr

/-- Embeds `formatFieldList` of the second variant (src/main.go lines
1018-1036): named parts first, then the bare type for unnamed fields; no
whitespace normalization. -/
def formatFieldListB (fl : Option (List GoField)) : String :=
  match fl with
  | Option.none => ""
  | Option.some fields =>
      String.intercalate ", " ((fields.map fun f =>
        (f.names.map fun n => n ++ " " ++ exprString f.ty) ++
          (if f.names.length = 0 then [exprString f.ty] else [])).flatten)

/-- Embeds `processFuncDecl` of the second variant (src/main.go lines
948-966): the emitted line for one function declaration (results joined by
`formatFieldList`, never parenthesized). -/
def processFuncDeclB (includePrivate : Bool) (relPath name : String)
    (ft : GoFuncType) : List String :=
  if includePrivate || isExported name then
    let params := formatFieldListB ft.params
    let results := formatFieldListB ft.results
    let signature := "func " ++ name ++ "(" ++ params ++ ")" ++
      (if results ≠ "" then " " ++ results else "")
    [relPath ++ ": " ++ signature]
  else []

/-- Embeds `formatFuncDecl` (src/main.go lines 800-818); the receiver is
detected but not rendered, both branches write the bare name. -/
def formatFuncDecl (name : String) (ft : GoFuncType) : String :=
  "func " ++ name ++ formatFuncType ft

/-- Embeds `formatTypeSpec` (src/main.go lines 643-694) on the modelled
fragment: struct and interface bodies are outside the fragment, so the
default branch applies, followed by the source's double-space collapse. -/
def formatTypeSpec (name : String) (ty : GoExpr) : String :=
  goReplaceAll ("type " ++ name ++ " " ++ exprString ty) "  " " "

/-- The special-case test of `formatValueSpec` (src/main.go lines 766-774):
the value is a binary expression whose left operand is a selector rooted at
the identifier `time`. -/
def isTimeBinary : GoExpr → Bool
  | .binary _ x _ =>
    match x with
    | .selector (.ident t) _ => t == "time"
    | _ => false
  | _ => false

/-- Type string chosen by `formatValueSpec` (src/main.go lines 750-774) for
the name at index `i`: explicit type, else inferred from the value; then
the `Status`/`Day` name-based overrides; then the `time` binary-expression
override. -/
def specTypeStr (tyOpt : Option GoExpr) (values : GoExprList) (i : Nat)
    (name : String) : String :=
  let t0 :=
    match tyOpt with
    | Option.some t => exprString t
    | Option.none =>
        match values.get? i with
        | Option.some v => inferType v
        | Option.none => ""
  let t1 :=
    if goStartsWith name "Status" then "Status"
    else if name == "Monday" || name == "Tuesday" || name == "Sunday" then
      "Day"
    else t0
  match values.get? i with
  | Option.some v => if isTimeBinary v then "time.Duration" else t1
  | Option.none => t1

/-- One line built by the loop body of `formatValueSpec` (src/main.go lines
745-795) for the name at index `i`; `none` models a panic propagated from
`formatValue`. -/
def formatValueSpecLine (tyOpt : Option GoExpr) (values : GoExprList)
    (tok : GoTok) (maxLen : Nat) (i : Nat) (name : String) :
    Option String :=
  let typeStr := specTypeStr tyOpt values i name
  let base := "var " ++ name ++
    (if typeStr = "" then "" else " " ++ typeStr)
  match values.get? i with
  | Option.some v => (formatValue v maxLen).map (fun s => base ++ " = " ++ s)
  | Option.none =>
    match tok with
    | .const =>
      if goStartsWith name "Status" || name == "Sunday" ||
          name == "Monday" || name == "Tuesday" then
        Option.some (base ++ " = iota")
      else
        Option.some (base ++ " = " ++ toString (i + 1))
    | _ => Option.some base

/-- Sequencing of a fallible map over a list (a Go loop in which a panic
in the body aborts the whole call). -/
def seqOption {α β : Type} (f : α → Option β) : List α → Option (List β)
  | [] => Option.some []
  | a :: as =>
    match f a, seqOption f as with
    | Option.some b, Option.some bs => Option.some (b :: bs)
    | _, _ => Option.none

/-- Embeds `formatValueSpec` (src/main.go lines 742-798): one `var` line
per bound name. -/
def formatValueSpec (names : List String) (tyOpt : Option GoExpr)
    (values : GoExprList) (tok : GoTok) (maxLen : Nat) :
    Option (List String) :=
  seqOption (fun p => formatValueSpecLine tyOpt values tok maxLen p.1 p.2)
    names.enum

/-- A list of key-value composite-literal elements built from pairs (used
to quantify over well-formed map literals). -/
def kvList : List (GoExpr × GoExpr) → GoExprList
  | [] => .nil
  | p :: ps => .cons (.keyValue p.1 p.2) (kvList ps)

/-- A declaration spec (go/ast.Spec): a type spec or a value spec, with the
source position reported by `Pos()`. -/
inductive GoSpec where
  | typeSpec (pos : Nat) (name : String) (ty : GoExpr)
  | valueSpec (pos : Nat) (names : List String) (tyOpt : Option GoExpr)
      (values : GoExprList)

/-- A top-level declaration (go/ast.Decl): a general declaration with its
token and specs, or a function declaration. -/
inductive GoDecl where
  | genDecl (pos : Nat) (tok : GoTok) (specs : List GoSpec)
  | funcDecl (pos : Nat) (name : String) (ft : GoFuncType)

/-- The `declsByPos` writes of one spec in `processFile` of the first
variant (src/main.go lines 115-129): a type spec filtered on its name, a
value spec filtered on its first name only (`s.Names[0]`; parsed specs
always bind at least one name, modelled by `headD`), each write keyed by
the spec's position. -/
def specWritesA (includePrivate : Bool) (maxLen : Nat) (relPath : String)
    (tok : GoTok) : GoSpec → Option (List (Nat × String))
  | .typeSpec pos name ty =>
    if includePrivate = false ∧ isExported name = false then Option.some []
    else Option.some [(pos, relPath ++ ": " ++ formatTypeSpec name ty)]
  | .valueSpec pos names tyOpt values =>
    if includePrivate = false ∧ isExported (names.headD "") = false then
      Option.some []
    else
      (formatValueSpec names tyOpt values tok maxLen).map
        (fun lines => lines.map fun l => (pos, relPath ++ ": " ++ l))

/-- The `declsByPos` writes of one declaration in `processFile` of the
first variant (src/main.go lines 112-137). -/
def declWritesA (includePrivate : Bool) (maxLen : Nat) (relPath : String) :
    GoDecl → Option (List (Nat × String))
  | .genDecl _ tok specs =>
    (seqOption (specWritesA includePrivate maxLen relPath tok) specs).map
      List.flatten
  | .funcDecl pos name ft =>
    if includePrivate = false ∧ isExported name = false then Option.some []
    else Option.some [(pos, relPath ++ ": " ++ formatFuncDecl name ft)]

/-- All `declsByPos` writes of one file, in source-traversal order
(`processFile` of the first variant, src/main.go lines 108-137). -/
def processFileWritesA (includePrivate : Bool) (maxLen : Nat)
    (relPath : String) (decls : List GoDecl) :
    Option (List (Nat × String)) :=
  (seqOption (declWritesA includePrivate maxLen relPath) decls).map
    List.flatten

/-- The value stored in the `declsByPos` Go map at position `p` after all
writes: the last write at that key, if any. -/
def lastWriteAt (writes : List (Nat × String)) (p : Nat) : Option String :=
  ((writes.filter fun w => w.1 == p).map Prod.snd).getLast?

/-- The keys of the `declsByPos` map sorted ascending (src/main.go lines
139-146; the Go map collects each written key once, modelled by `dedup`,
and `sort.Slice` with `<` is modelled by `insertionSort (· ≤ ·)`). -/
def sortedKeys (writes : List (Nat × String)) : List Nat :=
  ((writes.map Prod.fst).dedup).insertionSort (· ≤ ·)

/-- The emission loop of `processFile` of the first variant (src/main.go
lines 148-151): positions in sorted order, each with its map value. -/
def emitOrdered (writes : List (Nat × String)) : List (Nat × String) :=
  (sortedKeys writes).filterMap
    fun p => (lastWriteAt writes p).map fun s => (p, s)

/-- Embeds `processFile` of the first variant (src/main.go lines 93-154)
on a parsed file's declarations: the printed `(position, line)` sequence;
`none` models a propagated rendering panic. -/
def processFileA (includePrivate : Bool) (maxLen : Nat) (relPath : String)
    (decls : List GoDecl) : Option (List (Nat × String)) :=
  (processFileWritesA includePrivate maxLen relPath decls).map emitOrdered

/-- The lines printed for one spec by `processGenDecl` of the second
variant (src/main.go lines 928-945): per-name filtering, `var <name>` with
the truncated value when values are included and present. -/
def specLinesB (includePrivate includeValues : Bool) (maxLen : Nat)
    (relPath : String) : GoSpec → List String
  | .valueSpec _ names _ values =>
    names.enum.filterMap fun p =>
      if includePrivate || isExported p.2 then
        Option.some (relPath ++ ": var " ++ p.2 ++
          (match (if includeValues then values.get? p.1
                  else Option.none) with
           | Option.some v => " = " ++ formatValueB (exprString v) maxLen
           | Option.none => ""))
      else Option.none
  | .typeSpec _ name _ =>
    if includePrivate || isExported name then
      [relPath ++ ": type " ++ name]
    else []

/-- Embeds `processGenDecl` of the second variant (src/main.go lines
920-946) over a declaration's specs. -/
def processGenDeclB (includePrivate includeValues : Bool) (maxLen : Nat)
    (relPath : String) (specs : List GoSpec) : List String :=
  (specs.map (specLinesB includePrivate includeValues maxLen relPath)).flatten

/-- Specification-side count of the names of one spec that pass the
per-name visibility filter, for comparison with the emitted line count. -/
def perNameIncludedCount (includePrivate : Bool) : GoSpec → Nat
  | .valueSpec _ names _ _ =>
    (names.filter fun n => includePrivate || isExported n).length
  | .typeSpec _ name _ => if includePrivate || isExported name then 1 else 0

/-- The per-file loop of `processPath` of the first variant (src/main.go
lines 219-225): files processed in order, the first error aborts the loop
and is returned; `parse` abstracts `processFile`'s outcome per file.
Returns the emitted lines and the error, if any. -/
def processFilesA (parse : String → Except String (List String)) :
    List String → List String × Option String
  | [] => ([], Option.none)
  | f :: fs =>
    match parse f with
    | .error e => ([], Option.some e)
    | .ok lines =>
      let r := processFilesA parse fs
      (lines ++ r.1, r.2)

/-- The per-path loop of `main` of the second variant (src/main.go lines
866-895): each path's error is printed and the loop continues with the
remaining paths; `processPath` abstracts the per-path outcome. -/
def mainLoopB (processPath : String → Except String (List String)) :
    List String → List String
  | [] => []
  | p :: ps =>
    (match processPath p with
     | .ok lines => lines
     | .error e => [e]) ++ mainLoopB processPath ps

/-- A concrete parse outcome with one failing file, used to exercise the
error-policy models. -/
def parseStub (f : String) : Except String (List String) :=
  if f = "bad.go" then .error "bad.go: syntax error"
  else .ok [f ++ ": func Main()"]

/-- Claim C1 evaluated at its failing input: `formatValue` (first variant)
truncates a rendered string literal longer than `maxValueLength = 30` to
its first 27 characters plus `...`, a total of exactly 30 characters,
while the claim (and both test files) require the first 30 characters
plus `...`, a total of 33 — behaviour the second variant's `formatValueB`
exhibits. -/
theorem formatValue_string_truncation_c1 :
    formatValue
        (.basicLit .string
          "\"this is a very long string that should be truncated\"") 30
      = Option.some "\"this is a very long string..." ∧
    ("\"this is a very long string...").length = 30 ∧
    (formatValueB
        "\"this is a very long string that should be truncated\"" 30).length
      = 33 := by
  decide

/-- Claim C4 evaluated at its failing input: on the bare identifier `iota`
the type inferencer returns the hardcoded label `"Status"`, not the
`"int"` the claim states. -/
theorem inferType_iota_c4 :
    inferType (.ident "iota") = "Status" ∧ ("Status" : String) ≠ "int" := by
  decide

/-- Claim C9 counterexample: with `maxValueLength = 0` (which satisfies the
claim's bound `maxValueLength ≥ 0`), rendering the two-character string
literal `""` runs the slice `val[:0-3]` out of bounds — modelled as
`none` — so rendering is not total on all `maxValueLength ≥ 0`. -/
theorem formatValue_panic_cex_c9 :
    formatValue (.basicLit .string "\"\"") 0 = Option.none := by
  decide

/-- Claim C9 amended: `formatValue` of the first variant is total for every
`maxValueLength ≥ 3`; the truncation slice is then always in bounds. -/
theorem formatValue_total_amended_c9 (e : GoExpr) (maxLen : Nat)
    (h : 3 ≤ maxLen) : (formatValue e maxLen).isSome = true := by
  cases e with
  | basicLit k v =>
    cases k with
    | string =>
      simp only [formatValue]
      split
      · split
        · omega
        · simp
      · simp
    | int => simp [formatValue]
    | float => simp [formatValue]
    | char => simp [formatValue]
    | imag => simp [formatValue]
  | composite ty elts =>
    cases ty with
    | none => simp [formatValue]
    | some t => cases t <;> simp [formatValue]
  | ident n => simp [formatValue]
  | selector x s => simp [formatValue]
  | binary op x y => simp [formatValue]
  | star x => simp [formatValue]
  | paren x => simp [formatValue]
  | call f args => simp [formatValue]
  | keyValue k v => simp [formatValue]
  | mapType k v => simp [formatValue]

/-- Claim C9 witness: the amended totality theorem applied at the bound. -/
theorem formatValue_total_amended_c9_witness :
    3 ≤ 3 ∧ (formatValue (.basicLit .string "\"abcd\"") 3).isSome = true :=
  ⟨by decide,
   formatValue_total_amended_c9 (.basicLit .string "\"abcd\"") 3 (by decide)⟩

/-- Helper: a Go suffix check succeeds on an appended suffix. -/
theorem goEndsWith_append (a b : String) : goEndsWith (a ++ b) b = true := by
  simp [goEndsWith, String.data_append, List.isSuffixOf_iff_suffix]

/-- Claim C6 counterexample: `formatFuncType` renders the single named
result `(n int)` bare as `int` — no parentheses and the name dropped —
although the claim requires any named result to be parenthesized in every
rendered function signature. -/
theorem formatFuncType_namedResult_cex_c6 :
    formatFuncType ⟨Option.none, Option.some [⟨["n"], .ident "int"⟩]⟩
      = "() int" ∧ ("() int" : String) ≠ "() (n int)" := by
  decide

/-- Claim C6 amended: the stated rule holds for `formatMethodResults`
(interface methods): a single unnamed result stays bare and multiple
results or a single named result are parenthesized; `formatFuncType`
(function declarations) instead drops result names, keeps a single result
bare, and parenthesizes exactly when there are at least two results whose
first rendered type is not already parenthesized. -/
theorem result_rendering_amended_c6 :
    (∀ ty : GoExpr,
      formatMethodResults (Option.some [⟨[], ty⟩])
        = formatFieldListA (Option.some [⟨[], ty⟩])) ∧
    (∀ fields : List GoField, fields.length > 1 →
      formatMethodResults (Option.some fields)
        = "(" ++ formatFieldListA (Option.some fields) ++ ")") ∧
    (∀ (ns : List String) (ty : GoExpr), ns ≠ [] →
      formatMethodResults (Option.some [⟨ns, ty⟩])
        = "(" ++ formatFieldListA (Option.some [⟨ns, ty⟩]) ++ ")") ∧
    (∀ f : GoField,
      formatFuncTypeResults (Option.some [f]) = " " ++ resultTypeStr f) ∧
    (∀ (f : GoField) (rest : List GoField), rest ≠ [] →
      goStartsWith (resultTypeStr f) "(" = false →
      formatFuncTypeResults (Option.some (f :: rest))
        = " " ++ ("(" ++ String.intercalate ", "
            ((f :: rest).map resultTypeStr) ++ ")")) := by
  refine ⟨?_, ?_, ?_, ?_, ?_⟩
  · intro ty
    simp [formatMethodResults]
  · intro fields h
    have h0 : fields.length ≠ 0 := by omega
    simp only [formatMethodResults]
    rw [if_neg h0, if_pos (Or.inl h)]
  · intro ns ty h
    simp only [formatMethodResults]
    rw [if_neg (by simp), if_pos]
    right
    exact ⟨by simp, by simpa using List.length_pos.mpr h⟩
  · intro f
    simp [formatFuncTypeResults]
    rfl
  · intro f rest hne hpar
    simp only [formatFuncTypeResults]
    rw [if_pos (by simp)]
    rw [if_pos ⟨by simpa using List.length_pos.mpr hne, by simpa using hpar⟩]

/-- Claim C6 witness: the amended theorem applied at concrete field
lists. -/
theorem result_rendering_amended_c6_witness :
    formatMethodResults
        (Option.some [⟨[], GoExpr.ident "int"⟩, ⟨[], GoExpr.ident "error"⟩])
      = "(" ++ formatFieldListA
          (Option.some
            [⟨[], GoExpr.ident "int"⟩, ⟨[], GoExpr.ident "error"⟩]) ++ ")" ∧
    formatMethodResults (Option.some [⟨["n"], GoExpr.ident "int"⟩])
      = "(" ++ formatFieldListA
          (Option.some [⟨["n"], GoExpr.ident "int"⟩]) ++ ")" ∧
    formatFuncTypeResults
        (Option.some
          [⟨[], GoExpr.ident "int"⟩, ⟨[], GoExpr.ident "error"⟩])
      = " " ++ ("(" ++ String.intercalate ", "
          ([(⟨[], GoExpr.ident "int"⟩ : GoField),
            ⟨[], GoExpr.ident "error"⟩].map resultTypeStr) ++ ")") :=
  ⟨result_rendering_amended_c6.2.1 _ (by decide),
   result_rendering_amended_c6.2.2.1 ["n"] (GoExpr.ident "int") (by decide),
   result_rendering_amended_c6.2.2.2.2 ⟨[], GoExpr.ident "int"⟩
     [⟨[], GoExpr.ident "error"⟩] (by simp) (by decide)⟩

/-- Claim C10 counterexample: a name with the `Status` prefix whose value
is a `time` binary expression is rendered with type `time.Duration`, not
`Status` — the name-based override is not unconditional. -/
theorem formatValueSpec_timeOverride_cex_c10 :
    formatValueSpec ["StatusX"] Option.none
        (.cons (.binary "*" (.selector (.ident "time") "Second")
          (.basicLit .int "30")) .nil) .var 30
      = Option.some ["var StatusX time.Duration = time.Second * 30"] ∧
    Option.some ["var StatusX time.Duration = time.Second * 30"]
      ≠ Option.some ["var StatusX Status = time.Second * 30"] := by
  decide

/-- Claim C10 amended: unless the value at the name's index is a binary
expression whose left operand is a selector rooted at the identifier
`time` (then the type is `time.Duration`), a name with prefix `Status`
gets type `Status` and the names `Sunday`, `Monday`, `Tuesday` get type
`Day`, regardless of the declared or inferred type; a valueless constant
with one of these name shapes is rendered ending in `= iota`, any other
valueless constant at index `i` ends in the one-based `= i+1`. -/
theorem formatValueSpec_specialNames_amended_c10 :
    (∀ (tyOpt : Option GoExpr) (values : GoExprList) (i : Nat)
        (name : String),
      (∀ v, values.get? i = Option.some v → isTimeBinary v = false) →
      goStartsWith name "Status" = true →
      specTypeStr tyOpt values i name = "Status") ∧
    (∀ (tyOpt : Option GoExpr) (values : GoExprList) (i : Nat)
        (name : String),
      (∀ v, values.get? i = Option.some v → isTimeBinary v = false) →
      goStartsWith name "Status" = false →
      (name = "Monday" ∨ name = "Tuesday" ∨ name = "Sunday") →
      specTypeStr tyOpt values i name = "Day") ∧
    (∀ (tyOpt : Option GoExpr) (values : GoExprList) (i : Nat)
        (name : String) (v : GoExpr),
      values.get? i = Option.some v → isTimeBinary v = true →
      specTypeStr tyOpt values i name = "time.Duration") ∧
    (∀ (tyOpt : Option GoExpr) (values : GoExprList) (maxLen i : Nat)
        (name l : String),
      values.get? i = Option.none →
      (goStartsWith name "Status" = true ∨ name = "Sunday" ∨
        name = "Monday" ∨ name = "Tuesday") →
      formatValueSpecLine tyOpt values .const maxLen i name
        = Option.some l →
      goEndsWith l " = iota" = true) ∧
    (∀ (tyOpt : Option GoExpr) (values : GoExprList) (maxLen i : Nat)
        (name l : String),
      values.get? i = Option.none →
      goStartsWith name "Status" = false → name ≠ "Sunday" →
      name ≠ "Monday" → name ≠ "Tuesday" →
      formatValueSpecLine tyOpt values .const maxLen i name
        = Option.some l →
      goEndsWith l (" = " ++ toString (i + 1)) = true) := by
  refine ⟨?_, ?_, ?_, ?_, ?_⟩
  · intro tyOpt values i name hnt hst
    simp only [specTypeStr, hst]
    cases hv : values.get? i with
    | none => simp
    | some v => simp [hnt v hv]
  · intro tyOpt values i name hnt hst hday
    simp only [specTypeStr, hst]
    have hd :
        (name == "Monday" || name == "Tuesday" || name == "Sunday")
          = true := by
      rcases hday with h | h | h <;> simp [h]
    simp only [hd]
    cases hv : values.get? i with
    | none => simp
    | some v => simp [hnt v hv]
  · intro tyOpt values i name v hv ht
    simp only [specTypeStr, hv, ht]
    simp
  · intro tyOpt values maxLen i name l hv hshape hline
    have hcond :
        (goStartsWith name "Status" || name == "Sunday" ||
          name == "Monday" || name == "Tuesday") = true := by
      rcases hshape with h | h | h | h <;> simp [h]
    simp only [formatValueSpecLine, hv] at hline
    rw [if_pos hcond] at hline
    have hl := Option.some.inj hline
    subst hl
    exact goEndsWith_append _ _
  · intro tyOpt values maxLen i name l hv h1 h2 h3 h4 hline
    have hcond :
        (goStartsWith name "Status" || name == "Sunday" ||
          name == "Monday" || name == "Tuesday") = false := by
      simp [h1, h2, h3, h4]
    simp only [formatValueSpecLine, hv] at hline
    rw [if_neg (by simp [hcond])] at hline
    have hl := Option.some.inj hline
    subst hl
    rw [String.append_assoc]
    exact goEndsWith_append _ _

/-- Claim C10 witness: the amended theorem applied at concrete names and
value lists. -/
theorem formatValueSpec_specialNames_amended_c10_witness :
    specTypeStr (Option.some (GoExpr.ident "int")) .nil 0 "StatusOK"
      = "Status" ∧
    specTypeStr Option.none .nil 0 "Sunday" = "Day" ∧
    specTypeStr Option.none
        (.cons (.binary "*" (.selector (.ident "time") "Second")
          (.basicLit .int "30")) .nil) 0 "MaxDelay" = "time.Duration" ∧
    (∀ l, formatValueSpecLine Option.none .nil .const 30 1 "Monday"
        = Option.some l → goEndsWith l " = iota" = true) ∧
    (∀ l, formatValueSpecLine Option.none .nil .const 30 1 "Other"
        = Option.some l → goEndsWith l (" = " ++ toString 2) = true) :=
  ⟨formatValueSpec_specialNames_amended_c10.1
      (Option.some (GoExpr.ident "int")) GoExprList.nil 0 "StatusOK"
      (fun v hv => Option.noConfusion hv) rfl,
   formatValueSpec_specialNames_amended_c10.2.1 Option.none GoExprList.nil
      0 "Sunday" (fun v hv => Option.noConfusion hv) rfl
      (Or.inr (Or.inr rfl)),
   formatValueSpec_specialNames_amended_c10.2.2.1 Option.none
      (.cons (.binary "*" (.selector (.ident "time") "Second")
        (.basicLit .int "30")) .nil) 0 "MaxDelay"
      (.binary "*" (.selector (.ident "time") "Second")
        (.basicLit .int "30")) rfl rfl,
   fun l h => formatValueSpec_specialNames_amended_c10.2.2.2.1
      Option.none .nil 30 1 "Monday" l rfl
      (Or.inr (Or.inr (Or.inl rfl))) h,
   fun l h => formatValueSpec_specialNames_amended_c10.2.2.2.2
      Option.none .nil 30 1 "Other" l rfl rfl (by decide) (by decide)
      (by decide) h⟩

/-- Helper: `mapElements` on a list of key-value elements renders each
pair as `k: v`, in order. -/
theorem mapElements_kvList (kvs : List (GoExpr × GoExpr)) :
    mapElements (kvList kvs)
      = kvs.map fun p => exprString p.1 ++ ": " ++ exprString p.2 := by
  induction kvs with
  | nil => rfl
  | cons p ps ih => simp [kvList, mapElements, ih]

/-- Claim C7 counterexample: `formatValue` renders a map literal with zero
elements with the fixed text `timeout: 30, retries: true` inside the
braces, not with empty braces as the claim requires. -/
theorem formatValue_emptyMap_cex_c7 :
    formatValue
        (.composite (.some (.mapType (.ident "string") (.ident "int")))
          .nil) 30
      = Option.some "map[string]int\x7btimeout: 30, retries: true\x7d" ∧
    ("map[string]int\x7btimeout: 30, retries: true\x7d" : String)
      ≠ "map[string]int\x7b\x7d" := by
  decide

/-- Claim C7 amended: `formatMapLiteral` renders exactly the source
literal's key-value elements in order, with empty braces for zero
elements; `formatValue`'s map branch does the same for non-empty literals
but emits the fixed text `timeout: 30, retries: true` inside the braces
when the literal has zero elements. -/
theorem mapLiteral_rendering_amended_c7 :
    (∀ (k v : GoExpr) (kvs : List (GoExpr × GoExpr)),
      formatMapLiteral (.some (.mapType k v)) (kvList kvs)
        = "map[" ++ exprString k ++ "]" ++ exprString v ++ "\x7b" ++
            String.intercalate ", "
              (kvs.map fun p => exprString p.1 ++ ": " ++ exprString p.2)
            ++ "\x7d") ∧
    (∀ k v : GoExpr,
      formatMapLiteral (.some (.mapType k v)) .nil
        = "map[" ++ exprString k ++ "]" ++ exprString v ++ "\x7b\x7d") ∧
    (∀ (k v : GoExpr) (kvs : List (GoExpr × GoExpr)), kvs ≠ [] →
      formatValue (.composite (.some (.mapType k v)) (kvList kvs)) 30
        = Option.some ("map[" ++ exprString k ++ "]" ++ exprString v ++
            "\x7b" ++ exprCommaSep (kvList kvs) ++ "\x7d")) ∧
    (∀ (k v : GoExpr) (maxLen : Nat),
      formatValue (.composite (.some (.mapType k v)) .nil) maxLen
        = Option.some ("map[" ++ exprString k ++ "]" ++ exprString v ++
            "\x7b" ++ "timeout: 30, retries: true" ++ "\x7d")) := by
  refine ⟨?_, ?_, ?_, ?_⟩
  · intro k v kvs
    simp [formatMapLiteral, mapElements_kvList]
  · intro k v
    simp only [formatMapLiteral, mapElements]
    rw [show String.intercalate ", " ([] : List String) = "" from rfl]
    simp only [String.append_empty]
    rw [String.append_assoc, show ("\x7b" ++ "\x7d" : String) = "\x7b\x7d"
      from rfl]
  · intro k v kvs hne
    have hlen : (kvList kvs).length > 0 := by
      cases kvs with
      | nil => exact absurd rfl hne
      | cons p ps => simp [kvList, GoExprList.length]
    simp only [formatValue]
    rw [if_pos hlen]
  · intro k v maxLen
    simp [formatValue, GoExprList.length]

/-- Claim C2 counterexample: with `includePrivate = false`, the value group
`var a, B = 1, 2` produces no output line at all — in particular none for
the exported name `B` — because `processFile` of the first variant filters
the whole group on its first name `a`. -/
theorem processFileA_groupFilter_cex_c2 :
    isExported "B" = true ∧
    processFileA false 30 "t.go"
        [.genDecl 5 .var [.valueSpec 5 ["a", "B"] Option.none
          (.cons (.basicLit .int "1")
            (.cons (.basicLit .int "2") .nil))]]
      = Option.some [] := by
  decide

/-- Helper: the length of the per-name filtered emission over an
enumerated name list equals the length of the filtered name list, for any
start index. -/
theorem filterMap_enumFrom_length {β : Type} (p : String → Bool)
    (g : Nat → String → β) (names : List String) (k : Nat) :
    ((List.enumFrom k names).filterMap fun q =>
        if p q.2 then Option.some (g q.1 q.2) else Option.none).length
      = (names.filter p).length := by
  induction names generalizing k with
  | nil => rfl
  | cons n ns ih =>
    simp only [List.enumFrom, List.filterMap_cons, List.filter_cons]
    cases hp : p n <;> simp [hp, ih]

/-- Claim C2 amended: type and function declarations are filtered per name
and `processGenDecl` of the second variant filters each name of a value
group independently (it emits exactly as many lines as names pass the
filter); but in `processFile` of the first variant a value group is
included or skipped as a whole, based solely on the exported-ness of its
first bound name. -/
theorem visibility_filtering_amended_c2 :
    (∀ (maxLen : Nat) (relPath : String) (tok : GoTok) (pos : Nat)
        (names : List String) (tyOpt : Option GoExpr)
        (values : GoExprList),
      isExported (names.headD "") = false →
      specWritesA false maxLen relPath tok
          (.valueSpec pos names tyOpt values) = Option.some []) ∧
    (∀ (maxLen : Nat) (relPath : String) (tok : GoTok) (pos : Nat)
        (names : List String) (tyOpt : Option GoExpr)
        (values : GoExprList),
      isExported (names.headD "") = true →
      specWritesA false maxLen relPath tok
          (.valueSpec pos names tyOpt values)
        = (formatValueSpec names tyOpt values tok maxLen).map
            (fun lines => lines.map fun l =>
              (pos, relPath ++ ": " ++ l))) ∧
    (∀ (ip iv : Bool) (maxLen : Nat) (relPath : String)
        (specs : List GoSpec),
      (processGenDeclB ip iv maxLen relPath specs).length
        = (specs.map (perNameIncludedCount ip)).sum) := by
  refine ⟨?_, ?_, ?_⟩
  · intro maxLen relPath tok pos names tyOpt values h
    simp only [specWritesA]
    rw [if_pos ⟨by simp, h⟩]
  · intro maxLen relPath tok pos names tyOpt values h
    simp only [specWritesA]
    rw [if_neg]
    intro hc
    rw [h] at hc
    exact absurd hc.2 (by simp)
  · intro ip iv maxLen relPath specs
    induction specs with
    | nil => rfl
    | cons s ss ih =>
      simp only [processGenDeclB, List.map_cons, List.flatten_cons,
        List.length_append, List.sum_cons] at *
      rw [ih]
      congr 1
      cases s with
      | typeSpec pos name ty =>
        simp only [specLinesB, perNameIncludedCount]
        cases h : (ip || isExported name) <;> simp [h]
      | valueSpec pos names tyOpt values =>
        simpa only [specLinesB, perNameIncludedCount, List.enum] using
          filterMap_enumFrom_length (fun n => ip || isExported n)
            (fun i n => relPath ++ ": var " ++ n ++
              (match (if iv then values.get? i else Option.none) with
               | Option.some v =>
                   " = " ++ formatValueB (exprString v) maxLen
               | Option.none => "")) names 0

/-- Claim C2 witness: the amended theorem applied at concrete groups. -/
theorem visibility_filtering_amended_c2_witness :
    specWritesA false 30 "t.go" .var
        (.valueSpec 5 ["a", "B"] Option.none .nil) = Option.some [] ∧
    specWritesA false 30 "t.go" .var
        (.valueSpec 5 ["A", "b"] Option.none .nil)
      = (formatValueSpec ["A", "b"] Option.none .nil .var 30).map
          (fun lines => lines.map fun l => (5, "t.go" ++ ": " ++ l)) :=
  ⟨visibility_filtering_amended_c2.1 30 "t.go" .var 5 ["a", "B"]
      Option.none .nil (by decide),
   visibility_filtering_amended_c2.2.1 30 "t.go" .var 5 ["A", "b"]
      Option.none .nil (by decide)⟩

/-- Helper: the sorted key list of the position map is strictly
increasing (sorted and duplicate-free). -/
theorem sortedKeys_sorted_lt (writes : List (Nat × String)) :
    (sortedKeys writes).Sorted (· < ·) := by
  have hs : (sortedKeys writes).Sorted (· ≤ ·) :=
    List.sorted_insertionSort _ _
  have hn : (sortedKeys writes).Nodup :=
    ((List.perm_insertionSort _ _).nodup_iff).mpr (List.nodup_dedup _)
  exact hs.lt_of_le hn

/-- Helper: the emitted positions form a sublist of the sorted keys. -/
theorem emitOrdered_fst_sublist (writes : List (Nat × String)) :
    ((emitOrdered writes).map Prod.fst).Sublist (sortedKeys writes) := by
  unfold emitOrdered
  generalize sortedKeys writes = l
  induction l with
  | nil => simp
  | cons a l ih =>
    simp only [List.filterMap_cons]
    cases h : lastWriteAt writes a with
    | none =>
      simp only [Option.map_none']
      exact ih.cons a
    | some s =>
      simp only [Option.map_some', List.map_cons]
      exact ih.cons₂ a

/-- Helper: every emitted pair carries the last value written at its
position. -/
theorem emitOrdered_mem_lastWrite (writes : List (Nat × String))
    (pr : Nat × String) (h : pr ∈ emitOrdered writes) :
    lastWriteAt writes pr.1 = Option.some pr.2 := by
  unfold emitOrdered at h
  obtain ⟨p, _, hmap⟩ := List.mem_filterMap.mp h
  cases hw : lastWriteAt writes p with
  | none => rw [hw] at hmap; cases hmap
  | some s =>
    rw [hw] at hmap
    simp only [Option.map_some', Option.some.injEq] at hmap
    rw [← hmap]
    exact hw

/-- Claim C3: for every successfully processed file, `processFile` of the
first variant emits its lines in strictly increasing source-position
order of their originating declarations, and a position written several
times during the source-order traversal keeps only the last write
(last-write-wins of the position-keyed map). -/
theorem processFileA_emit_order_c3 (ip : Bool) (maxLen : Nat)
    (relPath : String) (decls : List GoDecl)
    (writes : List (Nat × String)) (out : List (Nat × String))
    (hw : processFileWritesA ip maxLen relPath decls = Option.some writes)
    (hout : processFileA ip maxLen relPath decls = Option.some out) :
    (out.map Prod.fst).Sorted (· < ·) ∧
    ∀ pr ∈ out, lastWriteAt writes pr.1 = Option.some pr.2 := by
  have heq : out = emitOrdered writes := by
    unfold processFileA at hout
    rw [hw] at hout
    simpa using hout.symm
  subst heq
  exact ⟨List.Pairwise.sublist (emitOrdered_fst_sublist writes)
      (sortedKeys_sorted_lt writes),
    fun pr hpr => emitOrdered_mem_lastWrite writes pr hpr⟩

/-- Claim C3 witness: the ordering theorem applied to a file with a
two-name value group (both names written at the group's position, the
last surviving) followed by a function declaration. -/
theorem processFileA_emit_order_c3_witness :
    (([(5, "t.go: var B"), (9, "t.go: func F()")] :
        List (Nat × String)).map Prod.fst).Sorted (· < ·) ∧
    ∀ pr ∈ ([(5, "t.go: var B"), (9, "t.go: func F()")] :
        List (Nat × String)),
      lastWriteAt
          [(5, "t.go: var A"), (5, "t.go: var B"), (9, "t.go: func F()")]
          pr.1
        = Option.some pr.2 :=
  processFileA_emit_order_c3 false 30 "t.go"
    [.genDecl 5 .var [.valueSpec 5 ["A", "B"] Option.none .nil],
     .funcDecl 9 "F" ⟨Option.none, Option.none⟩]
    [(5, "t.go: var A"), (5, "t.go: var B"), (9, "t.go: func F()")]
    [(5, "t.go: var B"), (9, "t.go: func F()")]
    (by decide) (by decide)

/-- Claim C5 evaluated at its failing input: the two-name group
`var A, B = 1, 2` (all names passing the filter) makes `processFile` of
the first variant emit exactly one line — both lines are written to the
same map key, the spec's position, so the second overwrites the first —
while the claim (and the repository's own tests, which expect one line
per bound name) require two; `processGenDecl` of the second variant does
emit two. -/
theorem processFileA_group_collapse_c5 :
    processFileA true 30 "t.go"
        [.genDecl 5 .var [.valueSpec 5 ["A", "B"] Option.none
          (.cons (.basicLit .int "1")
            (.cons (.basicLit .int "2") .nil))]]
      = Option.some [(5, "t.go: var B int = 2")] ∧
    (processGenDeclB true true 30 "t.go"
        [.valueSpec 5 ["A", "B"] Option.none
          (.cons (.basicLit .int "1")
            (.cons (.basicLit .int "2") .nil))]).length = 2 := by
  decide

/-- Claim C8 counterexample: in the first variant's directory loop, a file
that fails to parse aborts the whole loop — the remaining file, although
it would have produced a line, contributes nothing to the output. -/
theorem processFilesA_abort_cex_c8 :
    parseStub "good.go" = .ok ["good.go: func Main()"] ∧
    processFilesA parseStub ["bad.go", "good.go"]
      = ([], Option.some "bad.go: syntax error") :=
  ⟨rfl, rfl⟩

/-- Claim C8 amended: in the first variant a parse failure aborts the
remaining files of the run (nothing is emitted after the first error); in
the second variant each top-level path's error is reported and every
other path is still processed — the lines of every successfully
processed path appear in the output. -/
theorem error_policy_amended_c8 :
    (∀ (parse : String → Except String (List String)) (f : String)
        (fs : List String) (e : String),
      parse f = .error e →
      processFilesA parse (f :: fs) = ([], Option.some e)) ∧
    (∀ (pp : String → Except String (List String)) (ps : List String)
        (p : String) (lines : List String),
      p ∈ ps → pp p = .ok lines →
      List.Sublist lines (mainLoopB pp ps)) := by
  constructor
  · intro parse f fs e h
    simp [processFilesA, h]
  · intro pp ps
    induction ps with
    | nil => intro p lines h; cases h
    | cons q qs ih =>
      intro p lines hmem hok
      rcases List.mem_cons.mp hmem with rfl | htail
      · simp only [mainLoopB, hok]
        exact List.sublist_append_left lines (mainLoopB pp qs)
      · exact (ih p lines htail hok).trans
          (List.sublist_append_right _ _)

/-- Claim C8 witness: the amended error-policy theorem applied to the
concrete parse outcome with one failing file. -/
theorem error_policy_amended_c8_witness :
    processFilesA parseStub ("bad.go" :: ["good.go"])
      = ([], Option.some "bad.go: syntax error") ∧
    List.Sublist ["good.go: func Main()"]
      (mainLoopB parseStub ["bad.go", "good.go"]) :=
  ⟨error_policy_amended_c8.1 parseStub "bad.go" ["good.go"]
      "bad.go: syntax error" rfl,
   error_policy_amended_c8.2 parseStub ["bad.go", "good.go"] "good.go"
      ["good.go: func Main()"] (by simp) rfl⟩

/-- Claim C7 witness: the amended map-literal theorem applied to a
one-element literal. -/
theorem mapLiteral_rendering_amended_c7_witness :
    formatValue
        (.composite (.some (.mapType (.ident "string") (.ident "int")))
          (kvList [(.basicLit .string "\"a\"", .basicLit .int "1")])) 30
      = Option.some ("map[" ++ exprString (.ident "string") ++ "]" ++
          exprString (.ident "int") ++ "\x7b" ++
          exprCommaSep
            (kvList [(.basicLit .string "\"a\"", .basicLit .int "1")]) ++
          "\x7d") :=
  mapLiteral_rendering_amended_c7.2.2.1 (.ident "string") (.ident "int")
    [(.basicLit .string "\"a\"", .basicLit .int "1")] (by simp)
